/-
Verification of the widget-key tree engine of the plume repository
(`src/plume/rdf/widgetkey.py`): twin-key visibility synchronization,
translation-group language bookkeeping, row layout computation,
single-child bookkeeping, key construction and copy semantics.

Each namespace below is a shallow embedding of one cluster of methods of
`widgetkey.py`; the Python line numbers of the embedded code are quoted
next to every definition.  Mutating methods become functions from state
to state; the shared actions book (`plume.rdf.actionsbook.ActionsBook`,
whose module is not part of the sources) is rendered as explicit
notification outputs of each operation; raising code returns `Except`.
-/
import Mathlib

/-- Modelled from the spec: the exception taxonomy of
`plume.rdf.exceptions` (section 7 of the design document), whose module
is not among the source files: `MissingParameter`, `ForbiddenOperation`,
`IntegrityBreach`, `UnknownParameterValue`. -/
inductive PlumeError where
  | missingParameter
  | forbiddenOperation
  | integrityBreach
  | unknownParameterValue
deriving DecidableEq, Repr

/-
Model of a twin pair for `ObjectKey.is_hidden_m` (widgetkey.py lines
1056-1067) and `WidgetKey._hide_m` (lines 367-377).  Twin keys are the
two `ObjectKey` members of a pair linked through `m_twin`; the parent's
masked flag is `parentHiddenM`.  The setter additionally refreshes
`is_main_twin` and recomputes rows (lines 1065-1067); those effects
touch other state components and are embedded in the models of the
claims that mention them.
-/

namespace TwinSync

structure TwinKey where
  isGhost : Bool
  isHiddenM : Bool
deriving DecidableEq, Repr

/-- Notifications appended to the actions book by `_hide_m`. -/
inductive HNotif where
  | show
  | hide
deriving DecidableEq, Repr

/-- Embedding of `WidgetKey._hide_m` (lines 367-377): a ghost key is left
untouched; otherwise the masked flag is overwritten and a show/hide
notification is recorded when the flag actually flips. -/
def hideM (k : TwinKey) (value : Bool) : TwinKey × List HNotif :=
  if k.isGhost then (k, [])
  else
    let old := k.isHiddenM
    let k' := { k with isHiddenM := value }
    if !value && old then (k', [HNotif.show])
    else if value && !old then (k', [HNotif.hide])
    else (k', [])

/-- State of a twin pair: the two keys, the masked flag of their common
parent, and whether `m_twin` links them (it is set symmetrically, lines
1011-1013). -/
structure TwinPair where
  a : TwinKey
  b : TwinKey
  parentHiddenM : Bool
  linked : Bool
deriving DecidableEq, Repr

/-- Embedding of the `ObjectKey.is_hidden_m` setter (lines 1056-1064):
no-op for a ghost key, a masked parent branch, or an unlinked key;
otherwise `value or False` is written to the target twin by `_hide_m`
and the complement to the other twin.  `onA` selects the assigned twin.
The Python `value` may be `None`, hence `Option Bool`. -/
def setIsHiddenM (p : TwinPair) (onA : Bool) (value : Option Bool) :
    TwinPair × List HNotif :=
  let selfK := if onA then p.a else p.b
  if selfK.isGhost || p.parentHiddenM || !p.linked then (p, [])
  else
    let v := value.getD false
    if onA then
      let (a', na) := hideM p.a v
      let (b', nb) := hideM p.b (!v)
      ({ p with a := a', b := b' }, na ++ nb)
    else
      let (b', nb) := hideM p.b v
      let (a', na) := hideM p.a (!v)
      ({ p with a := a', b := b' }, nb ++ na)

/-- C1.  Twin visibility is mutually exclusive: whenever the
`is_hidden_m` setter acts on a twin of a linked pair that is not inside
an ancestor-masked branch (keys not ghosts, parent not masked), the
assigned twin's masked flag becomes the assigned value (`None` read as
`False`) and the other twin's flag becomes its complement, so the two
flags always disagree afterwards and at most one of them is `False`. -/
theorem c1_twin_visibility_exclusive (p : TwinPair) (onA : Bool)
    (value : Option Bool)
    (ha : p.a.isGhost = false) (hb : p.b.isGhost = false)
    (hm : p.parentHiddenM = false) (hl : p.linked = true) :
    ((setIsHiddenM p onA value).1.a.isHiddenM
        = !(setIsHiddenM p onA value).1.b.isHiddenM) ∧
    (onA = true →
      (setIsHiddenM p onA value).1.a.isHiddenM = value.getD false) ∧
    (onA = false →
      (setIsHiddenM p onA value).1.b.isHiddenM = value.getD false) := by
  cases onA <;>
    simp [setIsHiddenM, hideM, ha, hb, hm, hl] <;>
    cases value.getD false <;>
    cases hA : p.a.isHiddenM <;> cases hB : p.b.isHiddenM <;> simp

/-- Example linked twin pair: `a` visible, `b` masked, parent branch
visible. -/
def pairEx : TwinPair :=
  ⟨⟨false, false⟩, ⟨false, true⟩, false, true⟩

/-- Witness for C1: hiding the visible twin `a` of `pairEx` leaves `a`
masked and `b` visible. -/
theorem c1_twin_visibility_exclusive_witness :
    ((setIsHiddenM pairEx true (some true)).1.a.isHiddenM
        = !(setIsHiddenM pairEx true (some true)).1.b.isHiddenM) ∧
    (true = true →
      (setIsHiddenM pairEx true (some true)).1.a.isHiddenM
        = (some true).getD false) ∧
    (true = false →
      (setIsHiddenM pairEx true (some true)).1.b.isHiddenM
        = (some true).getD false) :=
  c1_twin_visibility_exclusive pairEx true (some true) rfl rfl rfl rfl

end TwinSync

/-
Model of `RootKey.search_from_rdftype` (widgetkey.py lines 3725-3739)
and `GroupKey._search_from_rdftype` (lines 1345-1354).  The tree is
reduced to the constructors the search distinguishes: value keys
(not groups), groups of properties (carrying an `rdftype`), and the
other group kinds (groups of values / translation groups / tabs, which
are only recursed into); `rdftype` is rendered as a number.
-/

namespace Search

inductive SKey where
  | valueK (isGhost : Bool)
  | gop (isGhost : Bool) (rdftype : Nat) (children : List SKey)
  | otherGroup (isGhost : Bool) (children : List SKey)

/-- Embedding of `GroupKey._search_from_rdftype` (lines 1345-1354):
walk the non-ghost children in order; a matching group of properties is
appended to `matchlist`; every group child is recursed into (a matching
group of properties is both appended and recursed into). -/
def searchAux (t : Nat) : List SKey → List SKey → List SKey
  | [], acc => acc
  | SKey.valueK _ :: cs, acc => searchAux t cs acc
  | SKey.gop g rt gcs :: cs, acc =>
      if g then searchAux t cs acc
      else
        let acc1 := if rt = t then acc ++ [SKey.gop g rt gcs] else acc
        searchAux t cs (searchAux t gcs acc1)
  | SKey.otherGroup g gcs :: cs, acc =>
      if g then searchAux t cs acc
      else searchAux t cs (searchAux t gcs acc)

/-- Embedding of `RootKey.search_from_rdftype` (lines 3725-3739): the
method builds `matchlist`, runs the recursive collection on the root's
children, and ends without a `return` statement, so the Python function
returns `None`. -/
def search_from_rdftype (rootChildren : List SKey) (t : Nat) :
    Option (List SKey) :=
  let _matchlist := searchAux t rootChildren []
  none

/-- C9.  `RootKey.search_from_rdftype` returns `None` on every tree and
every `rdftype`, even though the internal collection pass does gather
matching groups of properties (second conjunct: on a one-node tree the
internal list is non-empty). -/
theorem c9_search_from_rdftype_returns_none :
    (∀ (rootChildren : List SKey) (t : Nat),
      search_from_rdftype rootChildren t = none) ∧
    searchAux 5 [SKey.gop false 5 []] [] = [SKey.gop false 5 []] :=
  ⟨fun _ _ => rfl, by simp [searchAux]⟩

end Search

/-
Model of `TranslationGroupKey.__new__` (widgetkey.py lines 2498-2506)
together with the parts of the `GroupOfValuesKey` initialization that
the substituted call runs: the parent check of the `parent` setter
(lines 285-303), ghost/masked inheritance (lines 297-301), the
mandatory `predicate` (lines 1989-1993) and the `available_languages`
initialization of a translation group (lines 2508-2510).  `Par` ranges
over the parent classes `GroupOfValuesKey._validate_parent`
(line 1948-1949) accepts: `GroupOfPropertiesKey`, `TabKey`, `RootKey`.
-/

namespace TgNew

inductive ParClass where
  | root
  | tabK
  | gop
deriving DecidableEq, Repr

structure Par where
  cls : ParClass
  isGhost : Bool
  isHiddenM : Bool
deriving DecidableEq, Repr

inductive BuiltKind where
  | translationGroup
  | groupOfValues
deriving DecidableEq, Repr

structure Built where
  kind : BuiltKind
  isGhost : Bool
  isHiddenM : Bool
  /-- The `available_languages` pool, set only on translation groups. -/
  available : Option (List String)
deriving DecidableEq, Repr

/-- Default shared language list `WidgetKey.langlist` (line 124). -/
def langlist : List String := ["fr", "en"]

/-- Embedding of the construction of a `GroupOfValuesKey` (or of a
`TranslationGroupKey`, when `kind` says so) for the arguments that
matter here: a missing parent raises `MissingParameter` (line 290-293),
ghost and masked flags are inherited (lines 297-301), a missing
predicate raises `MissingParameter` (lines 1989-1993), and a
translation group initializes its language pool from `langlist`
(lines 2508-2510). -/
def groupOfValuesInit (kind : BuiltKind) (isGhost : Bool)
    (parent : Option Par) (predicate : Option String) :
    Except PlumeError Built :=
  match parent with
  | none => .error .missingParameter
  | some p =>
      match predicate with
      | none => .error .missingParameter
      | some _ =>
          .ok { kind := kind,
                isGhost := isGhost || p.isGhost,
                isHiddenM := p.isHiddenM,
                available :=
                  if kind = BuiltKind.translationGroup then some langlist
                  else none }

/-- Embedding of `TranslationGroupKey.__new__` (lines 2498-2506): when
the `is_ghost` keyword is set, or the parent is falsy — `not parent` is
true both for a missing parent and for a ghost parent, since
`WidgetKey.__bool__` is `not is_ghost` (lines 257-258) — a plain
`GroupOfValuesKey` is built from the same keyword arguments instead;
otherwise the normal translation-group initialization runs (with the
`is_ghost` keyword necessarily absent or `False` on this branch). -/
def translationGroupNew (isGhost : Bool) (parent : Option Par)
    (predicate : Option String) : Except PlumeError Built :=
  let parentFalsy :=
    match parent with
    | none => true
    | some p => p.isGhost
  if isGhost || parentFalsy then
    groupOfValuesInit BuiltKind.groupOfValues isGhost parent predicate
  else
    groupOfValuesInit BuiltKind.translationGroup false parent predicate

/-- C10.  Requesting a `TranslationGroupKey` with `is_ghost=True` and a
parent supplied never yields a translation group: whenever construction
succeeds it returns a plain `GroupOfValuesKey` instance (first
conjunct).  More generally no ghost translation group can exist: any
successfully built key of translation-group kind has a false ghost flag
(second conjunct), because a ghost parent is falsy and also triggers
the substitution. -/
theorem c10_no_ghost_translation_group :
    (∀ (p : Par) (pred : Option String) (b : Built),
      translationGroupNew true (some p) pred = .ok b →
        b.kind = BuiltKind.groupOfValues) ∧
    (∀ (g : Bool) (par : Option Par) (pred : Option String) (b : Built),
      translationGroupNew g par pred = .ok b →
        b.kind = BuiltKind.translationGroup → b.isGhost = false) := by
  constructor
  · intro p pred b h
    cases pred <;>
      simp [translationGroupNew, groupOfValuesInit] at h <;>
      simp [← h]
  · intro g par pred b h hk
    cases par with
    | none =>
        cases g <;> simp [translationGroupNew, groupOfValuesInit] at h
    | some p =>
        cases pred with
        | none =>
            by_cases hg : (g || p.isGhost) = true <;>
              simp [translationGroupNew, groupOfValuesInit, hg] at h
        | some s =>
            by_cases hg : (g || p.isGhost) = true <;>
              simp [translationGroupNew, groupOfValuesInit, hg] at h <;>
              rw [← h] at hk ⊢ <;> simp_all
/-- Example outcome of a ghost-flagged construction: a ghost plain
group of values. -/
def builtGov : Built :=
  ⟨BuiltKind.groupOfValues, true, false, none⟩

/-- Example outcome of a construction under a non-ghost parent: a
non-ghost translation group. -/
def builtTg : Built :=
  ⟨BuiltKind.translationGroup, false, false, some langlist⟩

/-- Witness for C10: requesting a ghost translation group under a tab
yields a plain group of values, and the translation group built under a
non-ghost tab is not a ghost. -/
theorem c10_no_ghost_translation_group_witness :
    builtGov.kind = BuiltKind.groupOfValues ∧ builtTg.isGhost = false :=
  ⟨(c10_no_ghost_translation_group).1 ⟨ParClass.tabK, false, false⟩
      (some "p") builtGov rfl,
    (c10_no_ghost_translation_group).2 false
      (some ⟨ParClass.tabK, false, false⟩) (some "p") builtTg rfl rfl⟩

end TgNew

/-
Model of key construction for `WidgetKey.__init__` (widgetkey.py lines
223-240), the `parent` setter (lines 285-303) with the
`_validate_parent` overrides (lines 305-306, 1476-1478, 1610-1615,
1948-1949, 3487-3488, 3606-3607), `_register` (lines 308-309 and
3490-3491), and the construction pipeline of a twin-less `ValueKey`
built with only `parent` and `predicate` supplied.  Keys are
represented by their class, their flags and a numeric identity; a
parent carries the state the setter reads and mutates.
-/

namespace Construction

inductive KeyClass where
  | root
  | tabK
  | gop
  | gov
  | tg
  | valueK
  | plusButton
  | transButton
deriving DecidableEq, Repr

/-- The Python `isinstance(•, GroupKey)` test. -/
def isGroupClass : KeyClass → Bool
  | .root | .tabK | .gop | .gov | .tg => true
  | _ => false

/-- State of a candidate parent key: class, flags, whether its
`rdftype` property is non-null (always null on a translation group,
lines 2519-2521), its `children` list and its `button` slot, both
holding key identities. -/
structure Par where
  cls : KeyClass
  isGhost : Bool
  isHiddenM : Bool
  rdftypeSet : Bool
  children : List Nat
  button : Option Nat
deriving DecidableEq, Repr

/-- State of the key under construction. -/
structure KeyS where
  cls : KeyClass
  id : Nat
  isUnborn : Bool
  isGhost : Bool
  isHiddenM : Bool
deriving DecidableEq, Repr

/-- Embedding of the `_validate_parent` methods.  `WidgetKey` (lines
305-306) accepts any group; `TabKey` (lines 1476-1478) a group of
properties or the root; `GroupOfPropertiesKey` (lines 1610-1615) first
raises `IntegrityBreach` when the parent is a group of values whose
`rdftype` is null — which is always the case for a translation group —
then accepts non-translation groups; `GroupOfValuesKey` (lines
1948-1949) accepts a group of properties, a tab or the root;
`PlusButtonKey` (lines 3487-3488) accepts exactly the class
`GroupOfValuesKey` (`type(parent) ==`, so not a translation group);
`TranslationButtonKey` (lines 3606-3607) accepts a translation
group. -/
def validateParent (c : KeyClass) (p : Par) : Except PlumeError Bool :=
  match c with
  | .tabK => .ok (p.cls = KeyClass.gop || p.cls = KeyClass.root)
  | .gop =>
      if (p.cls = KeyClass.gov && !p.rdftypeSet) || p.cls = KeyClass.tg then
        .error .integrityBreach
      else
        .ok (isGroupClass p.cls && !(p.cls = KeyClass.tg))
  | .gov | .tg =>
      .ok (p.cls = KeyClass.gop || p.cls = KeyClass.tabK
            || p.cls = KeyClass.root)
  | .plusButton => .ok (p.cls = KeyClass.gov)
  | .transButton => .ok (p.cls = KeyClass.tg)
  | .valueK | .root => .ok (isGroupClass p.cls)

/-- Embedding of `_register` (lines 308-309): append to the parent's
`children`; buttons instead occupy the `button` slot (lines
3490-3491, inherited by translation buttons). -/
def register (k : KeyS) (p : Par) : Par :=
  if k.cls = KeyClass.plusButton || k.cls = KeyClass.transButton then
    { p with button := some k.id }
  else
    { p with children := p.children ++ [k.id] }

/-- Embedding of the `parent` setter (lines 285-303): a key that is no
longer unborn raises `ForbiddenOperation`; a null parent raises
`MissingParameter`; a parent rejected by `_validate_parent` raises
`ForbiddenOperation` (and `_validate_parent` itself may raise); on
success the ghost and masked flags are inherited from the parent and
the key is registered. -/
def parentSet (k : KeyS) (v : Option Par) :
    Except PlumeError (KeyS × Par) :=
  if k.isUnborn = false then .error .forbiddenOperation
  else
    match v with
    | none => .error .missingParameter
    | some p =>
        match validateParent k.cls p with
        | .error e => .error e
        | .ok valid =>
            if valid = false then .error .forbiddenOperation
            else
              let k' := { k with
                isGhost := k.isGhost || p.isGhost,
                isHiddenM := k.isHiddenM || p.isHiddenM }
              .ok (k', register k' p)

/-- C8.  `parent` is write-once: on a born key every assignment raises
`ForbiddenOperation`; on an unborn key a null parent raises
`MissingParameter` and a parent failing the structural-compatibility
check raises `ForbiddenOperation`; on success the key is registered in
the parent's child collection (or in the button slot for button
classes) and inherits the parent's ghost and masked flags. -/
theorem c8_parent_write_once (k : KeyS) (p : Par) :
    (k.isUnborn = false →
      ∀ v, parentSet k v = .error .forbiddenOperation) ∧
    (k.isUnborn = true → parentSet k none = .error .missingParameter) ∧
    (k.isUnborn = true → validateParent k.cls p = .ok false →
      parentSet k (some p) = .error .forbiddenOperation) ∧
    (k.isUnborn = true → validateParent k.cls p = .ok true →
      ∃ k', parentSet k (some p) = .ok (k', register k' p) ∧
        k'.isGhost = (k.isGhost || p.isGhost) ∧
        k'.isHiddenM = (k.isHiddenM || p.isHiddenM) ∧
        k'.id = k.id ∧ k'.cls = k.cls ∧
        ((k.cls = KeyClass.plusButton ∨ k.cls = KeyClass.transButton) →
          register k' p = { p with button := some k.id }) ∧
        (¬(k.cls = KeyClass.plusButton ∨ k.cls = KeyClass.transButton) →
          register k' p = { p with children := p.children ++ [k.id] })) := by
  refine ⟨fun hb v => ?_, fun hu => ?_, fun hu hv => ?_, fun hu hv => ?_⟩
  · simp [parentSet, hb]
  · simp [parentSet, hu]
  · simp [parentSet, hu, hv]
  · refine ⟨{ k with
                isGhost := k.isGhost || p.isGhost,
                isHiddenM := k.isHiddenM || p.isHiddenM },
      by simp [parentSet, hu, hv], rfl, rfl, rfl, rfl,
      fun hc => ?_, fun hc => ?_⟩
    · rcases hc with hc | hc <;> simp [register, hc]
    · simp only [not_or] at hc
      simp [register, hc.1, hc.2]

/-- Example parent for the construction model: the tree root with no
children yet. -/
def rootPar : Par :=
  ⟨KeyClass.root, false, false, false, [], none⟩

/-- Example born tab key (identity 4). -/
def bornTab : KeyS :=
  ⟨KeyClass.tabK, 4, false, false, false⟩

/-- Example unborn tab key (identity 4). -/
def unbornTab : KeyS :=
  ⟨KeyClass.tabK, 4, true, false, false⟩

/-- Witness for C8: a born tab key refuses reassignment, and an unborn
tab key under the root registers into the root's children. -/
theorem c8_parent_write_once_witness :
    (parentSet bornTab (some rootPar) = .error .forbiddenOperation) ∧
    (∃ k', parentSet unbornTab (some rootPar)
      = .ok (k', register k' rootPar)) := by
  constructor
  · exact (c8_parent_write_once bornTab rootPar).1 rfl _
  · obtain ⟨k', hk, -⟩ :=
      (c8_parent_write_once unbornTab rootPar).2.2.2 rfl rfl
    exact ⟨k', hk⟩

/-- Embedding of the construction of a twin-less `ValueKey` given only
`parent` and `predicate` (all other keyword arguments absent).
`ValueKey.__new__` (lines 2751-2757) creates nothing when no `value` is
given and the parent is falsy (absent or ghost, `WidgetKey.__bool__`
lines 257-258): the result is then `ok none` and no state changes.
Otherwise `WidgetKey.__init__` (lines 223-240) runs `_base_attributes`,
then `_heritage` — the `parent` setter, which registers the new key in
the parent's children — and then `_computed_attributes`
(`ObjectKey._computed_attributes`, lines 755-761), whose `predicate`
setter (lines 807-817) raises `MissingParameter` when the key has no
twin, sits outside a group of values and receives no predicate.  With
these arguments no later setter of the pipeline raises.  The returned
pair is (construction result, final state of the parent): a raise in
Python does not undo the mutations already performed on the parent. -/
def valueKeyCreate (p : Option Par) (predicate : Option String)
    (keyId : Nat) : Except PlumeError (Option KeyS) × Option Par :=
  match p with
  | none => (.ok none, none)
  | some par =>
      if par.isGhost then (.ok none, some par)
      else
        match parentSet ⟨KeyClass.valueK, keyId, true, false, false⟩
            (some par) with
        | .error e => (.error e, some par)
        | .ok (k1, par1) =>
            if par1.cls = KeyClass.gov ∨ par1.cls = KeyClass.tg then
              (.ok (some { k1 with isUnborn := false }), some par1)
            else
              match predicate with
              | none => (.error .missingParameter, some par1)
              | some _ =>
                  (.ok (some { k1 with isUnborn := false }), some par1)

/-- Example parent for C4: a non-ghost tab key with no children. -/
def tabPar : Par :=
  ⟨KeyClass.tabK, false, false, false, [], none⟩

/-- Counterexample to C4: constructing a `ValueKey` under a tab with no
predicate raises `MissingParameter` — a validation error during key
construction — yet the partially constructed key (identity 7) remains
registered in the parent's child collection, because `_heritage`
registers the key before `_computed_attributes` raises.  So a
validation error during construction does not always leave the parent's
child collection untouched. -/
theorem c4_key_left_attached_on_error :
    valueKeyCreate (some tabPar) none 7
      = (.error .missingParameter, some { tabPar with children := [7] }) :=
  rfl

/-- C4 (amended).  Construction is atomic only up to the parent
assignment: when the `parent` setter itself raises (null parent,
incompatible parent class), the parent's child collection is unchanged;
but a validation error raised after registration — such as a missing
predicate outside a group of values — leaves the partially constructed
key attached to the parent's children. -/
theorem c4_atomic_only_before_registration (par : Par)
    (predicate : Option String) (keyId : Nat) :
    (∀ e, par.isGhost = false →
      parentSet ⟨KeyClass.valueK, keyId, true, false, false⟩ (some par)
          = .error e →
      valueKeyCreate (some par) predicate keyId = (.error e, some par)) ∧
    (par.isGhost = false → par.cls = KeyClass.tabK → predicate = none →
      valueKeyCreate (some par) predicate keyId
        = (.error .missingParameter,
            some { par with children := par.children ++ [keyId] })) := by
  constructor
  · intro e hg he
    simp [valueKeyCreate, hg, he]
  · intro hg hc hp
    have hv : validateParent KeyClass.valueK par = .ok true := by
      simp [validateParent, isGroupClass, hc]
    simp [valueKeyCreate, hg, hp, parentSet, hv, register, hc, hg]

/-- Witness for C4 (amended): a value key under a non-group parent is
rejected before registration and the parent keeps no trace of it; a
value key under a tab without predicate fails after registration and
stays attached. -/
theorem c4_atomic_only_before_registration_witness :
    (valueKeyCreate (some ⟨KeyClass.valueK, false, false, false, [],
        none⟩) none 3
      = (.error .forbiddenOperation,
          some ⟨KeyClass.valueK, false, false, false, [], none⟩)) ∧
    (valueKeyCreate (some tabPar) none 7
      = (.error .missingParameter,
          some { tabPar with children := tabPar.children ++ [7] })) := by
  constructor
  · exact (c4_atomic_only_before_registration
      ⟨KeyClass.valueK, false, false, false, [], none⟩ none 3).1
      .forbiddenOperation rfl (by rfl)
  · exact (c4_atomic_only_before_registration tabPar none 7).2
      rfl rfl rfl

end Construction

/-
Model of `GroupOfValuesKey.compute_single_children` (widgetkey.py
lines 2405-2432).  A child carries the fields the method reads: the
ghost flag, whether it has a twin and is the main twin (`m_twin`,
`is_main_twin`), and its stored `_is_single_child` flag.  The two
notification streams are the `show_minus_button` and
`hide_minus_button` books of the actions book.
-/

namespace SingleChildren

structure SChild where
  isGhost : Bool
  hasTwin : Bool
  isMainTwin : Bool
  isSingleChild : Bool
deriving DecidableEq, Repr

structure SGroup where
  isGhost : Bool
  children : List SChild
deriving DecidableEq, Repr

/-- Embedding of the true-children count (lines 2415-2418): non-ghost
children, a twin pair counting once through its main twin. -/
def trueChildrenCount (g : SGroup) : Nat :=
  (g.children.filter (fun c => !c.isGhost)).countP
    (fun c => !c.hasTwin || c.isMainTwin)

/-- Embedding of the notification loop (lines 2422-2432): ghosts are
skipped by `real_children`; with at least two true children a child
whose flag is not already `False` has it cleared and is appended to the
show book; with fewer than two a child whose flag is not already `True`
has it set and is appended to the hide book. -/
def cscWalk (cnt : Nat) : List SChild → List SChild × List SChild × List SChild
  | [] => ([], [], [])
  | c :: cs =>
      let r := cscWalk cnt cs
      if c.isGhost then (c :: r.1, r.2.1, r.2.2)
      else if 2 ≤ cnt ∧ c.isSingleChild = true then
        let c' := { c with isSingleChild := false }
        (c' :: r.1, c' :: r.2.1, r.2.2)
      else if cnt < 2 ∧ c.isSingleChild = false then
        let c' := { c with isSingleChild := true }
        (c' :: r.1, r.2.1, c' :: r.2.2)
      else (c :: r.1, r.2.1, r.2.2)

/-- Embedding of `compute_single_children` (lines 2405-2432): no-op for
a ghost group or while computation is suspended; otherwise the walk
above, on the count taken before the walk.  Returns the new group, the
show-minus-button book and the hide-minus-button book. -/
def computeSingleChildren (noComp : Bool) (g : SGroup) :
    SGroup × List SChild × List SChild :=
  if g.isGhost || noComp then (g, [], [])
  else
    let r := cscWalk (trueChildrenCount g) g.children
    ({ g with children := r.1 }, r.2.1, r.2.2)

/-- Claim-side description of the resulting flag of one child: every
non-ghost child's single-child flag becomes `count < 2`. -/
def specFlagged (cnt : Nat) (c : SChild) : SChild :=
  if c.isGhost then c else { c with isSingleChild := decide (cnt < 2) }

/-- Claim-side description of the show-minus-button notifications: they
fire, when the count is at least two, exactly for the non-ghost
children whose flag was not already false. -/
def specShowNotifs (cnt : Nat) (cs : List SChild) : List SChild :=
  if 2 ≤ cnt then
    (cs.filter (fun c => !c.isGhost && c.isSingleChild)).map
      (fun c => { c with isSingleChild := false })
  else []

/-- Claim-side description of the hide-minus-button notifications: they
fire, when the count is below two, exactly for the non-ghost children
whose flag was not already true. -/
def specHideNotifs (cnt : Nat) (cs : List SChild) : List SChild :=
  if cnt < 2 then
    (cs.filter (fun c => !c.isGhost && !c.isSingleChild)).map
      (fun c => { c with isSingleChild := true })
  else []

theorem setFlag_self {c : SChild} {b : Bool} (h : c.isSingleChild = b) :
    ({ c with isSingleChild := b } : SChild) = c := by
  cases c
  simp_all

theorem cscWalk_spec (cnt : Nat) (cs : List SChild) :
    cscWalk cnt cs
      = (cs.map (specFlagged cnt), specShowNotifs cnt cs,
          specHideNotifs cnt cs) := by
  induction cs with
  | nil => simp [cscWalk, specShowNotifs, specHideNotifs]
  | cons c cs ih =>
      obtain ⟨g0, t0, m0, f0⟩ := c
      by_cases h2 : 2 ≤ cnt
      · have hn2 : ¬cnt < 2 := Nat.not_lt.mpr h2
        cases g0 <;> cases f0 <;>
          simp [cscWalk, ih, specFlagged, specShowNotifs,
            specHideNotifs, h2, hn2]
      · have hn2 : cnt < 2 := Nat.not_le.mp h2
        cases g0 <;> cases f0 <;>
          simp [cscWalk, ih, specFlagged, specShowNotifs,
            specHideNotifs, h2, hn2]

theorem trueChildrenCount_map_specFlagged (cnt : Nat) (b : Bool)
    (cs : List SChild) :
    trueChildrenCount ⟨b, cs.map (specFlagged cnt)⟩
      = trueChildrenCount ⟨b, cs⟩ := by
  show ((cs.map (specFlagged cnt)).filter
      (fun c => !c.isGhost)).countP (fun c => !c.hasTwin || c.isMainTwin)
    = (cs.filter (fun c => !c.isGhost)).countP
      (fun c => !c.hasTwin || c.isMainTwin)
  induction cs with
  | nil => rfl
  | cons c cs ih =>
      obtain ⟨g0, t0, m0, f0⟩ := c
      cases g0 <;>
        simp [specFlagged, ih, List.filter_cons, List.countP_cons]

theorem specFlagged_idem (cnt : Nat) (c : SChild) :
    specFlagged cnt (specFlagged cnt c) = specFlagged cnt c := by
  obtain ⟨g0, t0, m0, f0⟩ := c
  cases g0 <;> simp [specFlagged]

theorem specShowNotifs_after (cnt : Nat) (cs : List SChild) :
    specShowNotifs cnt (cs.map (specFlagged cnt)) = [] := by
  unfold specShowNotifs
  by_cases h2 : 2 ≤ cnt
  · have hn2 : ¬cnt < 2 := Nat.not_lt.mpr h2
    simp only [h2, if_true]
    induction cs with
    | nil => rfl
    | cons c cs ih =>
        obtain ⟨g0, t0, m0, f0⟩ := c
        cases g0 <;> simp [specFlagged, hn2, List.filter_cons, ih]
  · simp [h2]

theorem specHideNotifs_after (cnt : Nat) (cs : List SChild) :
    specHideNotifs cnt (cs.map (specFlagged cnt)) = [] := by
  unfold specHideNotifs
  by_cases h2 : cnt < 2
  · simp only [h2, if_true]
    induction cs with
    | nil => rfl
    | cons c cs ih =>
        obtain ⟨g0, t0, m0, f0⟩ := c
        cases g0 <;> simp [specFlagged, h2, List.filter_cons, ih]
  · simp [h2]

/-- C7.  `compute_single_children` counts true children (non-ghost, a
twin pair counting once through its main twin); on a non-ghost group it
sets every non-ghost child's single-child flag to `count < 2`, emits a
show-minus-button notification exactly for the children whose flag was
not already false (when the count is at least 2), a hide-minus-button
notification exactly for those whose flag was not already true (when
the count is below 2), and a second run on the unchanged group emits no
notification at all — so across a 1→2→1 transition the notifications
fire only at the threshold crossings, never for a non-change. -/
theorem c7_compute_single_children (g : SGroup) (hg : g.isGhost = false) :
    computeSingleChildren false g
      = ({ g with children := g.children.map (specFlagged (trueChildrenCount g)) },
         specShowNotifs (trueChildrenCount g) g.children,
         specHideNotifs (trueChildrenCount g) g.children) ∧
    computeSingleChildren false (computeSingleChildren false g).1
      = ((computeSingleChildren false g).1, [], []) := by
  obtain ⟨gg, cs⟩ := g
  change gg = false at hg
  subst hg
  have h1 : computeSingleChildren false (⟨false, cs⟩ : SGroup)
      = (⟨false, cs.map (specFlagged (trueChildrenCount ⟨false, cs⟩))⟩,
         specShowNotifs (trueChildrenCount ⟨false, cs⟩) cs,
         specHideNotifs (trueChildrenCount ⟨false, cs⟩) cs) := by
    simp [computeSingleChildren, cscWalk_spec]
  refine ⟨h1, ?_⟩
  rw [h1]
  simp only [computeSingleChildren, Bool.false_or, if_false,
    trueChildrenCount_map_specFlagged, cscWalk_spec, List.map_map]
  have hmap :
      cs.map (specFlagged (trueChildrenCount ⟨false, cs⟩) ∘
        specFlagged (trueChildrenCount ⟨false, cs⟩))
        = cs.map (specFlagged (trueChildrenCount ⟨false, cs⟩)) := by
    apply List.map_congr_left
    intro c _
    exact specFlagged_idem _ c
  simp [hmap, specShowNotifs_after, specHideNotifs_after]

/-- Example group for the C7 witness: two singly flagged non-ghost
children, so the true-children count is 2. -/
def g2 : SGroup :=
  ⟨false, [⟨false, false, false, true⟩, ⟨false, false, false, true⟩]⟩

/-- Witness for C7: on `g2` both flags are cleared with two show
notifications, and the second pass is silent. -/
theorem c7_compute_single_children_witness :
    (computeSingleChildren false g2
      = ({ g2 with children := g2.children.map (specFlagged (trueChildrenCount g2)) },
         specShowNotifs (trueChildrenCount g2) g2.children,
         specHideNotifs (trueChildrenCount g2) g2.children) ∧
    computeSingleChildren false (computeSingleChildren false g2).1
      = ((computeSingleChildren false g2).1, [], [])) :=
  c7_compute_single_children g2 rfl

end SingleChildren

/-
Model of `WidgetKey.copy` / `_copy` (widgetkey.py lines 567-615),
`GroupKey.copy` (lines 1367-1408) and `GroupOfValuesKey.copy` (lines
2347-2380).  A branch without twin pairs is a tree: value keys carry
their value-bearing attribute (`attr_to_copy` marks `value`,
`value_language` and `value_source` as dropped on an empty copy, lines
3345-3352); groups of values carry a translation flag and their button;
copies are never ghosts (`is_ghost` is not a copied attribute and the
non-ghost parent does not ghost the copy).
-/

namespace CopyModel

inductive WTree where
  | valueK (isGhost : Bool) (value : Option String)
  | gop (isGhost : Bool) (children : List WTree)
  | gov (isGhost : Bool) (isTranslation : Bool) (children : List WTree)
      (hasButton : Bool)
  | tabK (isGhost : Bool) (children : List WTree)

def isGhostT : WTree → Bool
  | .valueK g _ => g
  | .gop g _ => g
  | .gov g _ _ _ => g
  | .tabK g _ => g

/-- The Python `isinstance(•, GroupOfValuesKey)` test (true for
translation groups as well). -/
def isGovT : WTree → Bool
  | .gov _ _ _ _ => true
  | _ => false

mutual

/-- Embedding of `_copy` and the subclass `copy` completions on a
non-ghost key: a value key drops its value-bearing attributes exactly
when the copy is empty (lines 3345-3352); a group also copies its
branch (lines 1401-1408); a group of values additionally copies its
button (lines 2377-2380). -/
def copyAux (empty : Bool) : WTree → WTree
  | .valueK _ v => .valueK false (if empty then none else v)
  | .gop _ cs => .gop false (copyChildren empty cs)
  | .gov _ tr cs btn => .gov false tr (copyChildren empty cs) btn
  | .tabK _ cs => .tabK false (copyChildren empty cs)

/-- Embedding of the child loop of `GroupKey.copy` (lines 1401-1407):
ghost children are skipped by `real_children`; each remaining child is
copied; the loop then stops — dropping all later siblings — as soon as
`empty` holds and the child just copied is an instance of
`GroupOfValuesKey` (line 1404 tests the class of the child, not of the
group being copied). -/
def copyChildren (empty : Bool) : List WTree → List WTree
  | [] => []
  | c :: cs =>
      if isGhostT c then copyChildren empty cs
      else
        let c' := copyAux empty c
        if empty && isGovT c then [c']
        else c' :: copyChildren empty cs

end

/-- Embedding of `WidgetKey.copy` (lines 567-607): applied to a ghost
key it raises `ForbiddenOperation`, otherwise it delegates to the
recursive copy. -/
def copy (k : WTree) (empty : Bool) : Except PlumeError WTree :=
  if isGhostT k then .error .forbiddenOperation
  else .ok (copyAux empty k)

/-- A translation group with two non-ghost value children and a
button. -/
def tgExample : WTree :=
  .gov false true [.valueK false (some "a"), .valueK false (some "b")]
    true

/-- A group of properties whose first child is a group of values and
whose second child is a plain value key. -/
def gopExample : WTree :=
  .gop false
    [.gov false false [.valueK false (some "a")] true,
     .valueK false (some "b")]

/-- C5 (behavior at the failing input).  `copy(empty=True)` on a
translation group with two children copies BOTH children (emptied), not
only the first: the break of line 1404 tests the child's class, which
is never `GroupOfValuesKey` inside a group of values, contradicting the
comment of lines 1405-1406.  The break instead truncates siblings of a
group-of-values child in an ordinary group (second conjunct, where the
value-key sibling of `gopExample` is dropped).  `copy(empty=False)`
deep-copies the whole visible branch with its values and button (third
conjunct), and copying a ghost key raises `ForbiddenOperation` (fourth
conjunct). -/
theorem c5_empty_copy_copies_all_children :
    copy tgExample true
      = .ok (.gov false true [.valueK false none, .valueK false none]
          true) ∧
    copy gopExample true
      = .ok (.gop false [.gov false false [.valueK false none] true]) ∧
    copy tgExample false = .ok tgExample ∧
    copy (.valueK true (some "x")) true = .error .forbiddenOperation := by
  refine ⟨?_, ?_, ?_, ?_⟩ <;>
    simp [copy, tgExample, gopExample, copyAux, copyChildren, isGhostT,
      isGovT]

end CopyModel

/-
Model of `GroupKey.compute_rows` (widgetkey.py lines 1288-1329) and
`GroupOfValuesKey.compute_rows` (lines 2382-2403).  A child carries the
fields the method reads: ghost flag, `order_idx` (a Python tuple of
integers), whether it is the non-main twin of a pair (skipped in the
walk), `independant_label`, `rowspan` and the stored `_row`.  The sort
of line 1318 is Python's stable `list.sort` keyed on `order_idx`; it is
rendered by `List.insertionSort` on the same key, the stable sort.
-/

namespace Rows

/-- Comparison of Python integer tuples: lexicographic, a strict prefix
sorting first. -/
def lexLeB : List Int → List Int → Bool
  | [], _ => true
  | _ :: _, [] => false
  | a :: as, b :: bs =>
      if a < b then true
      else if b < a then false
      else lexLeB as bs

theorem lexLeB_total (x y : List Int) :
    lexLeB x y = true ∨ lexLeB y x = true := by
  induction x generalizing y with
  | nil => left; rfl
  | cons a as ih =>
      cases y with
      | nil => right; rfl
      | cons b bs =>
          by_cases hab : a < b
          · left; simp [lexLeB, hab]
          · by_cases hba : b < a
            · right; simp [lexLeB, hba]
            · rcases ih bs with h | h
              · left
                simp [lexLeB, hab, hba, h]
              · right
                simp [lexLeB, hab, hba, h]

theorem lexLeB_trans (x y z : List Int) (hxy : lexLeB x y = true)
    (hyz : lexLeB y z = true) : lexLeB x z = true := by
  induction x generalizing y z with
  | nil => rfl
  | cons a as ih =>
      cases y with
      | nil => simp [lexLeB] at hxy
      | cons b bs =>
          cases z with
          | nil => simp [lexLeB] at hyz
          | cons c cs =>
              by_cases hab : a < b
              · by_cases hbc : b < c
                · have : a < c := lt_trans hab hbc
                  simp [lexLeB, this]
                · by_cases hcb : c < b
                  · simp [lexLeB, hbc, hcb] at hyz
                  · have hbc' : b = c := le_antisymm
                      (not_lt.mp hcb) (not_lt.mp hbc)
                    subst hbc'
                    simp [lexLeB, hab]
              · by_cases hba : b < a
                · simp [lexLeB, hab, hba] at hxy
                · have hab' : a = b := le_antisymm
                    (not_lt.mp hba) (not_lt.mp hab)
                  subst hab'
                  simp only [lexLeB, if_neg hab, if_neg hba] at hxy
                  by_cases hbc : a < c
                  · simp [lexLeB, hbc]
                  · by_cases hcb : c < a
                    · simp [lexLeB, hbc, hcb] at hyz
                    · simp only [lexLeB, if_neg hbc, if_neg hcb] at hyz ⊢
                      exact ih bs cs hxy hyz

structure RChild where
  isGhost : Bool
  orderIdx : List Int
  twinNotMain : Bool
  independentLabel : Bool
  rowspan : Nat
  row : Option Nat
deriving DecidableEq, Repr

/-- The sort key relation of `self.children.sort(key=lambda x:
x.order_idx)` (line 1318). -/
def childLe (a b : RChild) : Prop :=
  lexLeB a.orderIdx b.orderIdx = true

instance : DecidableRel childLe := fun a b =>
  inferInstanceAs (Decidable (lexLeB a.orderIdx b.orderIdx = true))

instance : IsTotal RChild childLe :=
  ⟨fun a b => lexLeB_total a.orderIdx b.orderIdx⟩

instance : IsTrans RChild childLe :=
  ⟨fun a b c => lexLeB_trans a.orderIdx b.orderIdx c.orderIdx⟩

/-- Embedding of the walk of lines 1319-1328: ghosts are skipped by
`real_children`, the non-main twin of a pair is skipped, an independent
label bumps the row counter first, the row is assigned (with a move
notification) only when it differs from the stored one, and the
counter advances by the child's rowspan.  Returns the rewritten
children, the move book, and the next free row. -/
def walkRows : List RChild → Nat → List RChild × List RChild × Nat
  | [], n => ([], [], n)
  | c :: cs, n =>
      if c.isGhost || c.twinNotMain then
        let r := walkRows cs n
        (c :: r.1, r.2.1, r.2.2)
      else
        let n1 := if c.independentLabel then n + 1 else n
        if c.row ≠ some n1 then
          let c' := { c with row := some n1 }
          let r := walkRows cs (n1 + c.rowspan)
          (c' :: r.1, c' :: r.2.1, r.2.2)
        else
          let r := walkRows cs (n1 + c.rowspan)
          (c :: r.1, r.2.1, r.2.2)

structure RGroup where
  isGhost : Bool
  isGroupOfValues : Bool
  children : List RChild
  /-- `none`: the group has no button; `some r`: the stored `_row` of
  the button of a group of values. -/
  buttonRow : Option (Option Nat)
deriving DecidableEq, Repr

/-- Embedding of `compute_rows` (lines 1288-1329 and 2382-2403): no-op
for a ghost group or under the shared `no_computation` flag; groups of
values keep insertion order while other groups sort by `order_idx`
first; then the walk; a group of values finally places its button (a
non-ghost button spans one row) after the children, with a move
notification when its row changes.  Returns the new group state, the
move book for children, whether the button moved, and the next free
row (`none` when the guard made the call a no-op). -/
def computeRows (noComp : Bool) (g : RGroup) :
    RGroup × List RChild × Bool × Option Nat :=
  if g.isGhost || noComp then (g, [], false, none)
  else
    let sorted :=
      if g.isGroupOfValues then g.children
      else g.children.insertionSort childLe
    let r := walkRows sorted 0
    let n := r.2.2
    if g.isGroupOfValues then
      match g.buttonRow with
      | none => ({ g with children := r.1 }, r.2.1, false, some n)
      | some br =>
          if br ≠ some n then
            ({ g with children := r.1, buttonRow := some (some n) },
              r.2.1, true, some (n + 1))
          else
            ({ g with children := r.1 }, r.2.1, false, some (n + 1))
    else ({ g with children := r.1 }, r.2.1, false, some n)

theorem walkRows_map_orderIdx (cs : List RChild) (n : Nat) :
    (walkRows cs n).1.map RChild.orderIdx = cs.map RChild.orderIdx := by
  induction cs generalizing n with
  | nil => rfl
  | cons c cs ih =>
      by_cases hs : (c.isGhost || c.twinNotMain) = true
      · simp [walkRows, hs, ih]
      · simp only [Bool.or_eq_true, not_or] at hs
        by_cases hrow : c.row
            = some (if c.independentLabel then n + 1 else n) <;>
          simp [walkRows, hs.1, hs.2, hrow, ih]

theorem walkRows_sorted (cs : List RChild) (n : Nat)
    (h : List.Sorted childLe cs) :
    List.Sorted childLe (walkRows cs n).1 := by
  have h1 : (cs.map RChild.orderIdx).Pairwise
      (fun x y => lexLeB x y = true) :=
    List.Pairwise.map RChild.orderIdx (fun _ _ hh => hh) h
  rw [← walkRows_map_orderIdx cs n] at h1
  exact List.Pairwise.of_map RChild.orderIdx (fun _ _ hh => hh) h1

theorem walkRows_idem (cs : List RChild) (n : Nat) :
    walkRows (walkRows cs n).1 n
      = ((walkRows cs n).1, [], (walkRows cs n).2.2) := by
  induction cs generalizing n with
  | nil => simp [walkRows]
  | cons c cs ih =>
      by_cases hs : (c.isGhost || c.twinNotMain) = true
      · simp [walkRows, hs, ih]
      · simp only [Bool.or_eq_true, not_or] at hs
        by_cases hrow : c.row
            = some (if c.independentLabel then n + 1 else n)
        · simp [walkRows, hs.1, hs.2, hrow, ih]
        · simp [walkRows, hs.1, hs.2, hrow, ih]

/-- C3.  `compute_rows` is idempotent: a second call on the unchanged
group records no move notification — for the children or the button —
and leaves the group state and the returned next free row exactly as
the first call left them.  This holds for both sorted groups and
groups of values, and trivially when the ghost or
`no_computation` guard makes the call a no-op. -/
theorem c3_compute_rows_idempotent (noComp : Bool) (g : RGroup) :
    computeRows noComp (computeRows noComp g).1
      = ((computeRows noComp g).1, [], false,
          (computeRows noComp g).2.2.2) := by
  by_cases hguard : (g.isGhost || noComp) = true
  · simp [computeRows, hguard]
  · obtain ⟨gh, gov, cs, btn⟩ := g
    simp only [Bool.or_eq_true, not_or, Bool.not_eq_true] at hguard
    obtain ⟨hgh, hnc⟩ := hguard
    subst hgh
    subst hnc
    cases gov with
    | true =>
        cases btn with
        | none => simp [computeRows, walkRows_idem]
        | some br =>
            by_cases hbr : br = some (walkRows cs 0).2.2
            · simp [computeRows, hbr, walkRows_idem]
            · simp [computeRows, hbr, walkRows_idem]
    | false =>
        have hsorted : List.Sorted childLe
            (walkRows (cs.insertionSort childLe) 0).1 :=
          walkRows_sorted _ 0 (List.sorted_insertionSort childLe cs)
        simp [computeRows, hsorted.insertionSort_eq, walkRows_idem]
end Rows

/-
Model of the translation-group language pool:
`TranslationGroupKey.language_in` / `language_out` (widgetkey.py lines
2560-2599), the `ValueKey.value_language` setter (lines 3097-3113) for
a child of a translation group, and the `ChildrenList.append` /
`remove` hooks (lines 3811-3840).  A child of a translation group is a
value key; its `xsdtype` is the group's, forced to `rdf:langString`
(lines 2556-2558), so the first guard of the setter never clears the
requested language.  `literalLang` is the language tag of the stored
`Literal` value, if any (read at line 3101-3102); `valueLanguage` is
the raw `_value_language` storage.
-/

namespace Lang

structure TChild where
  isGhost : Bool
  unborn : Bool
  valueLanguage : Option String
  literalLang : Option String
deriving DecidableEq, Repr

structure TransGroup where
  langlist : List String
  available : List String
  children : List TChild
  hasButton : Bool
deriving DecidableEq, Repr

inductive LNotif where
  | languages (c : TChild)
  | showButton
  | hideButton
deriving DecidableEq, Repr

/-- The language-refresh notifications sent to every visible child
(lines 2577-2578 and 2596-2597). -/
def childNotifs (g : TransGroup) : List LNotif :=
  (g.children.filter (fun c => !c.isGhost)).map LNotif.languages

/-- Embedding of `language_in` (lines 2560-2580): a language outside
the allowed list, or already available, is not returned to the pool;
otherwise it is appended, the children are notified, and the button is
shown when the pool was empty (its new length is 1). -/
def language_in (g : TransGroup) (l : Option String) :
    TransGroup × List LNotif :=
  match l with
  | none => (g, [])
  | some s =>
      if s ∉ g.langlist ∨ s ∈ g.available then (g, [])
      else
        let g' := { g with available := g.available ++ [s] }
        (g', childNotifs g' ++
          (if g.hasButton ∧ g'.available.length = 1 then
            [LNotif.showButton] else []))

/-- Embedding of `language_out` (lines 2582-2599): a language not in
the pool is tolerated (no-op); otherwise its first occurrence is
removed, the children are notified, and the button is hidden when the
pool becomes empty. -/
def language_out (g : TransGroup) (l : Option String) :
    TransGroup × List LNotif :=
  match l with
  | none => (g, [])
  | some s =>
      if s ∉ g.available then (g, [])
      else
        let g' := { g with available := g.available.erase s }
        (g', childNotifs g' ++
          (if g'.available = [] ∧ g.hasButton then
            [LNotif.hideButton] else []))

/-- The `ValueKey.value_language` property (lines 3092-3095) for a
child of a translation group: the raw storage, or the main language
(head of `langlist`) when nothing is stored.  `main_language` raises
`MissingParameter` on an empty `langlist` (lines 182-185); that
configuration is rendered as `none` and does not occur in the states
the theorems below quantify over. -/
def valueLangProp (g : TransGroup) (c : TChild) : Option String :=
  match c.valueLanguage with
  | some l => some l
  | none => g.langlist.head?

/-- Embedding of `ChildrenList.append` (lines 3822-3831) for a value
key appended to a translation group: the row / single-child
recomputation hooks are the models of the previous namespaces; the
language hook removes the appended child's language from the pool, and
the whole hook block is skipped for an unborn or ghost (falsy)
child. -/
def childAppend (g : TransGroup) (c : TChild) :
    TransGroup × List LNotif :=
  let g1 := { g with children := g.children ++ [c] }
  if !c.isGhost && !c.unborn then
    language_out g1 (valueLangProp g1 c)
  else (g1, [])

/-- Embedding of `ChildrenList.remove` (lines 3833-3840) for a value
key of a translation group: the removed child's language is returned
to the pool; unlike `append`, this hook is not guarded by the child's
truthiness. -/
def childRemove (g : TransGroup) (c : TChild) :
    TransGroup × List LNotif :=
  let g1 := { g with children := g.children.erase c }
  language_in g1 (valueLangProp g1 c)

/-- The tail of the `value_language` setter (lines 3109-3113): return
the old language to the pool, then withdraw the new one, then store the
new language on the child (at position `i` of the children list). -/
def applyLanguage (g : TransGroup) (i : Nat) (c : TChild) (l : String) :
    TransGroup × List LNotif :=
  let r1 := language_in g c.valueLanguage
  let r2 := language_out r1.1 (some l)
  ({ r2.1 with
      children := r2.1.children.set i { c with valueLanguage := some l } },
    r1.2 ++ r2.2)

/-- Embedding of the `ValueKey.value_language` setter (lines 3097-3113)
for the child at position `i` of a translation group: with no usable
language (no request, no language tag on the stored value) the first
pool language is drawn, or `IntegrityBreach` is raised on an empty
pool; then `language_in` runs for the old language and `language_out`
for the new one, in that order, and the raw storage is updated. -/
def setValueLanguage (g : TransGroup) (i : Nat) (v : Option String) :
    Except PlumeError (TransGroup × List LNotif) :=
  match g.children[i]? with
  | none => .ok (g, [])
  | some c =>
      let v1 :=
        match v with
        | none => c.literalLang
        | some s => some s
      match v1 with
      | none =>
          match g.available with
          | [] => .error .integrityBreach
          | l :: _ => .ok (applyLanguage g i c l)
      | some l => .ok (applyLanguage g i c l)

/-- Languages carried by the non-ghost value keys of a list of
children. -/
def consumedLangs (cs : List TChild) : List String :=
  cs.filterMap (fun c => if c.isGhost then none else c.valueLanguage)

/-- Languages currently consumed by the group's non-ghost value
children. -/
def consumed (g : TransGroup) : List String :=
  consumedLangs g.children

/-- The pool bookkeeping invariant of a translation group, stated over
the allowed list, the available pool and the consumed languages: the
pool and the consumed languages are duplicate-free and partition the
allowed list. -/
def PoolInv (ll av cons : List String) : Prop :=
  av.Nodup ∧ cons.Nodup ∧
  (∀ x ∈ av, x ∈ ll ∧ x ∉ cons) ∧
  (∀ x ∈ ll, x ∉ cons → x ∈ av) ∧
  (∀ x ∈ cons, x ∈ ll)

theorem poolInv_length {ll av cons : List String} (hll : ll.Nodup)
    (h : PoolInv ll av cons) :
    av.length + cons.length = ll.length := by
  obtain ⟨hav, hcons, havin, hllin, hconsll⟩ := h
  have hdisj : Disjoint av.toFinset cons.toFinset := by
    simp only [Finset.disjoint_left, List.mem_toFinset]
    intro a ha
    exact (havin a ha).2
  have hunion : av.toFinset ∪ cons.toFinset = ll.toFinset := by
    ext x
    simp only [Finset.mem_union, List.mem_toFinset]
    constructor
    · rintro (hx | hx)
      · exact (havin x hx).1
      · exact hconsll x hx
    · intro hx
      by_cases hc : x ∈ cons
      · exact Or.inr hc
      · exact Or.inl (hllin x hx hc)
  have h1 := List.toFinset_card_of_nodup hav
  have h2 := List.toFinset_card_of_nodup hcons
  have h3 := List.toFinset_card_of_nodup hll
  rw [← h1, ← h2, ← h3, ← Finset.card_union_of_disjoint hdisj, hunion]

theorem poolInv_consume {ll av cons : List String} {l : String}
    (h : PoolInv ll av cons) (hl : l ∈ av) :
    PoolInv ll (av.erase l) (cons ++ [l]) := by
  obtain ⟨hav, hcons, havin, hllin, hconsll⟩ := h
  have hlll : l ∈ ll := (havin l hl).1
  have hlcons : l ∉ cons := (havin l hl).2
  refine ⟨hav.erase l, ?_, ?_, ?_, ?_⟩
  · simp [List.nodup_append, hcons, hlcons, List.disjoint_singleton]
  · intro x hx
    have hx' := (List.Nodup.mem_erase_iff hav).mp hx
    refine ⟨(havin x hx'.2).1, ?_⟩
    intro hmem
    rcases List.mem_append.mp hmem with hc | hc
    · exact (havin x hx'.2).2 hc
    · exact hx'.1 (List.mem_singleton.mp hc)
  · intro x hxll hxnot
    have hxl : x ≠ l := fun he => hxnot (by simp [he])
    have hxav : x ∈ av := hllin x hxll (fun hc => hxnot (by simp [hc]))
    exact (List.Nodup.mem_erase_iff hav).mpr ⟨hxl, hxav⟩
  · intro x hx
    rcases List.mem_append.mp hx with hc | hc
    · exact hconsll x hc
    · rw [List.mem_singleton.mp hc]
      exact hlll

theorem poolInv_release {ll av cons : List String} {l : String}
    (h : PoolInv ll av (cons ++ [l])) :
    PoolInv ll (av ++ [l]) cons := by
  obtain ⟨hav, hcons, havin, hllin, hconsll⟩ := h
  have hlc2 : l ∈ cons ++ [l] := by simp
  have hlll : l ∈ ll := hconsll l hlc2
  have hlav : l ∉ av := fun hla => (havin l hla).2 hlc2
  have hnodup := List.nodup_append.mp hcons
  have hlnc : l ∉ cons := fun hc => hnodup.2.2 hc (by simp)
  refine ⟨?_, hnodup.1, ?_, ?_, ?_⟩
  · simp [List.nodup_append, hav, hlav, List.disjoint_singleton]
  · intro x hx
    rcases List.mem_append.mp hx with hc | hc
    · exact ⟨(havin x hc).1, fun hxc => (havin x hc).2 (by simp [hxc])⟩
    · rw [List.mem_singleton.mp hc]
      exact ⟨hlll, hlnc⟩
  · intro x hxll hxc
    by_cases hxl : x = l
    · simp [hxl]
    · refine List.mem_append.mpr (Or.inl (hllin x hxll ?_))
      intro hm
      rcases List.mem_append.mp hm with hc | hc
      · exact hxc hc
      · exact hxl (List.mem_singleton.mp hc)
  · intro x hx
    exact hconsll x (by simp [hx])

theorem poolInv_perm {ll av c1 c2 : List String} (hp : c1.Perm c2)
    (h : PoolInv ll av c1) : PoolInv ll av c2 := by
  obtain ⟨hav, hcons, havin, hllin, hconsll⟩ := h
  refine ⟨hav, hp.nodup_iff.mp hcons, ?_, ?_, ?_⟩
  · intro x hx
    exact ⟨(havin x hx).1, fun hc => (havin x hx).2 (hp.mem_iff.mpr hc)⟩
  · intro x hxll hxc2
    exact hllin x hxll (fun hc1 => hxc2 (hp.mem_iff.mp hc1))
  · intro x hx
    exact hconsll x (hp.mem_iff.mpr hx)

/-- All children of the group are materialized value keys: non-ghost,
fully constructed, carrying a language.  The builder never places ghost
keys in a translation group (`widgetsdict.py` lines 176-181 and 289:
`multilingual` requires translation mode while `onlyCurrentLanguage`
excludes it) and the `value_language` setter gives every child a
language at construction or raises. -/
def ProperChildren (g : TransGroup) : Prop :=
  ∀ c ∈ g.children,
    c.isGhost = false ∧ c.unborn = false ∧ c.valueLanguage ≠ none

/-- The invariant of the claim: the pool is the allowed list minus the
languages consumed by the (non-ghost) children, duplicate-free. -/
def Inv (g : TransGroup) : Prop :=
  PoolInv g.langlist g.available (consumed g) ∧ ProperChildren g

theorem consumedLangs_append (cs ds : List TChild) :
    consumedLangs (cs ++ ds) = consumedLangs cs ++ consumedLangs ds := by
  simp [consumedLangs]

theorem set_append_length {α : Type} (pre post : List α) (c x : α) :
    (pre ++ c :: post).set pre.length x = pre ++ x :: post := by
  induction pre with
  | nil => rfl
  | cons p ps ih => simp [ih]

theorem getElem?_append_cons {α : Type} (pre post : List α) (c : α) :
    (pre ++ c :: post)[pre.length]? = some c := by
  rw [List.getElem?_append_right (le_refl pre.length)]
  simp

theorem language_in_children (g : TransGroup) (x : Option String) :
    (language_in g x).1.children = g.children := by
  cases x with
  | none => rfl
  | some s =>
      by_cases h : s ∉ g.langlist ∨ s ∈ g.available <;>
        simp [language_in, h]

theorem language_out_children (g : TransGroup) (x : Option String) :
    (language_out g x).1.children = g.children := by
  cases x with
  | none => rfl
  | some s =>
      by_cases h : s ∉ g.available <;> simp [language_out, h]

theorem inv_childAppend (g : TransGroup) (c : TChild) (l : String)
    (hInv : Inv g) (hg : c.isGhost = false) (hu : c.unborn = false)
    (hl : c.valueLanguage = some l) (hav : l ∈ g.available) :
    Inv (childAppend g c).1 := by
  obtain ⟨hpool, hprop⟩ := hInv
  have hresult : (childAppend g c).1
      = { g with children := g.children ++ [c],
                 available := g.available.erase l } := by
    simp [childAppend, hg, hu, valueLangProp, hl, language_out, hav]
  rw [hresult]
  constructor
  · have hcons : consumedLangs (g.children ++ [c])
        = consumed g ++ [l] := by
      simp [consumedLangs_append, consumedLangs, hg, hl, consumed]
    show PoolInv g.langlist (g.available.erase l)
      (consumedLangs (g.children ++ [c]))
    rw [hcons]
    exact poolInv_consume hpool hav
  · intro x hx
    rcases List.mem_append.mp hx with hc | hc
    · exact hprop x hc
    · rw [List.mem_singleton.mp hc]
      exact ⟨hg, hu, by simp [hl]⟩

theorem inv_childRemove (g : TransGroup) (pre post : List TChild)
    (c : TChild) (hInv : Inv g) (hch : g.children = pre ++ c :: post)
    (hpre : c ∉ pre) : Inv (childRemove g c).1 := by
  obtain ⟨hpool, hprop⟩ := hInv
  have hcmem : c ∈ g.children := by
    rw [hch]; simp
  obtain ⟨hg, hu, hlsome⟩ := hprop c hcmem
  obtain ⟨l, hl⟩ := Option.ne_none_iff_exists'.mp hlsome
  have herase : g.children.erase c = pre ++ post := by
    rw [hch, List.erase_append_right _ hpre, List.erase_cons_head]
  have hcons : consumed g
      = consumedLangs pre ++ l :: consumedLangs post := by
    unfold consumed
    rw [hch, consumedLangs_append]
    simp [consumedLangs, hg, hl]
  have hlcons : l ∈ consumed g := by
    rw [hcons]; simp
  have hlll : l ∈ g.langlist := hpool.2.2.2.2 l hlcons
  have hlav : l ∉ g.available := fun h => (hpool.2.2.1 l h).2 hlcons
  have hguard : ¬(l ∉ g.langlist ∨ l ∈ g.available) := by
    push_neg
    exact ⟨hlll, hlav⟩
  have hresult : (childRemove g c).1
      = { g with children := pre ++ post,
                 available := g.available ++ [l] } := by
    simp [childRemove, herase, valueLangProp, hl, language_in, hguard]
  rw [hresult]
  constructor
  · have hperm : (consumed g).Perm
        ((consumedLangs pre ++ consumedLangs post) ++ [l]) := by
      rw [hcons]
      exact List.perm_middle.trans
        (List.perm_append_singleton l _).symm
    have p1 := poolInv_perm hperm hpool
    have p2 := poolInv_release p1
    show PoolInv g.langlist (g.available ++ [l])
      (consumedLangs (pre ++ post))
    rw [consumedLangs_append]
    exact p2
  · intro x hx
    apply hprop
    rw [hch]
    rcases List.mem_append.mp hx with hc | hc
    · exact List.mem_append.mpr (Or.inl hc)
    · exact List.mem_append.mpr (Or.inr (List.mem_cons_of_mem c hc))

theorem inv_applyLanguage (g : TransGroup) (pre post : List TChild)
    (c : TChild) (l : String) (hInv : Inv g)
    (hch : g.children = pre ++ c :: post)
    (hl : l ∈ g.available ∨ c.valueLanguage = some l) :
    Inv (applyLanguage g pre.length c l).1 := by
  obtain ⟨hpool, hprop⟩ := hInv
  have hcmem : c ∈ g.children := by
    rw [hch]; simp
  obtain ⟨hg, hu, hlsome⟩ := hprop c hcmem
  obtain ⟨lo, hlo⟩ := Option.ne_none_iff_exists'.mp hlsome
  have hcons : consumed g
      = consumedLangs pre ++ lo :: consumedLangs post := by
    unfold consumed
    rw [hch, consumedLangs_append]
    simp [consumedLangs, hg, hlo]
  have hlocons : lo ∈ consumed g := by
    rw [hcons]; simp
  have hloll : lo ∈ g.langlist := hpool.2.2.2.2 lo hlocons
  have hloav : lo ∉ g.available := fun h => (hpool.2.2.1 lo h).2 hlocons
  have hguard : ¬(lo ∉ g.langlist ∨ lo ∈ g.available) := by
    push_neg
    exact ⟨hloll, hloav⟩
  have hlav1 : l ∈ g.available ++ [lo] := by
    rcases hl with h | h
    · exact List.mem_append.mpr (Or.inl h)
    · rw [hlo] at h
      simp [Option.some_inj.mp h]
  have hresult : (applyLanguage g pre.length c l).1
      = { g with
            children := pre ++ { c with valueLanguage := some l } :: post,
            available := (g.available ++ [lo]).erase l } := by
    simp [applyLanguage, hlo, language_in, hguard, language_out, hlav1,
      hch, set_append_length]
  rw [hresult]
  constructor
  · have hperm : (consumed g).Perm
        ((consumedLangs pre ++ consumedLangs post) ++ [lo]) := by
      rw [hcons]
      exact List.perm_middle.trans
        (List.perm_append_singleton lo _).symm
    have p1 := poolInv_perm hperm hpool
    have p2 := poolInv_release p1
    have p3 := poolInv_consume p2 hlav1
    have hperm2 : ((consumedLangs pre ++ consumedLangs post) ++ [l]).Perm
        (consumedLangs pre ++ l :: consumedLangs post) :=
      ((List.perm_middle.trans
        (List.perm_append_singleton l _).symm)).symm
    have p4 := poolInv_perm hperm2 p3
    show PoolInv g.langlist ((g.available ++ [lo]).erase l)
      (consumedLangs
        (pre ++ { c with valueLanguage := some l } :: post))
    rw [consumedLangs_append]
    simpa [consumedLangs, hg] using p4
  · intro x hx
    rcases List.mem_append.mp hx with hc | hc
    · exact hprop x (by rw [hch]; exact List.mem_append.mpr (Or.inl hc))
    · rcases List.mem_cons.mp hc with hc | hc
      · rw [hc]
        exact ⟨hg, hu, by simp⟩
      · exact hprop x (by
          rw [hch]
          exact List.mem_append.mpr
            (Or.inr (List.mem_cons_of_mem c hc)))

/-- C2.  For a translation group satisfying the pool invariant — the
available pool equals the allowed list minus the languages consumed by
the non-ghost value children, without duplicates — the pool size plus
the number of consuming children equals the size of the allowed list,
and the invariant is preserved by the group's language mutation
surface: `ChildrenList.append` of a materialized child consuming a
fresh allowed language (no duplicate or disallowed language injected),
`ChildrenList.remove` of any child of the group, and the
`value_language` setter (which composes `language_in` and
`language_out`) whenever the requested language is drawn from the pool,
taken from the pool, or is the child's current language. -/
theorem c2_language_pool_invariant (g : TransGroup) (hInv : Inv g)
    (hll : g.langlist.Nodup) :
    (g.available.length + (consumed g).length = g.langlist.length) ∧
    (∀ c l, c.isGhost = false → c.unborn = false →
      c.valueLanguage = some l → l ∈ g.available →
      Inv (childAppend g c).1) ∧
    (∀ pre c post, g.children = pre ++ c :: post → c ∉ pre →
      Inv (childRemove g c).1) ∧
    (∀ pre c post v, g.children = pre ++ c :: post →
      (∀ l, v = some l ∨ (v = none ∧ c.literalLang = some l) →
        l ∈ g.available ∨ c.valueLanguage = some l) →
      ∀ g' ns, setValueLanguage g pre.length v = .ok (g', ns) →
        Inv g') := by
  refine ⟨poolInv_length hll hInv.1,
    fun c l hg hu hl hav => inv_childAppend g c l hInv hg hu hl hav,
    fun pre c post hch hpre => inv_childRemove g pre post c hInv hch hpre,
    fun pre c post v hch hv g' ns hok => ?_⟩
  have hge : g.children[pre.length]? = some c := by
    rw [hch]
    exact getElem?_append_cons pre post c
  cases v with
  | some s =>
      simp only [setValueLanguage, hge, Except.ok.injEq] at hok
      have hg' : g' = (applyLanguage g pre.length c s).1 := by rw [hok]
      rw [hg']
      exact inv_applyLanguage g pre post c s hInv hch (hv s (Or.inl rfl))
  | none =>
      cases hlit : c.literalLang with
      | some s =>
          simp only [setValueLanguage, hge, hlit, Except.ok.injEq] at hok
          have hg' : g' = (applyLanguage g pre.length c s).1 := by
            rw [hok]
          rw [hg']
          exact inv_applyLanguage g pre post c s hInv hch
            (hv s (Or.inr ⟨rfl, hlit⟩))
      | none =>
          cases hav : g.available with
          | nil =>
              simp [setValueLanguage, hge, hlit, hav] at hok
          | cons l rest =>
              simp only [setValueLanguage, hge, hlit, hav,
                Except.ok.injEq] at hok
              have hg' : g' = (applyLanguage g pre.length c l).1 := by
                rw [hok]
              rw [hg']
              exact inv_applyLanguage g pre post c l hInv hch
                (Or.inl (by rw [hav]; exact List.mem_cons_self l rest))

/-- Example translation group: allowed languages fr and en, a single
child holding fr, so en remains available. -/
def gW : TransGroup :=
  ⟨["fr", "en"], ["en"], [⟨false, false, some "fr", none⟩], true⟩

/-- Witness for C2: on `gW` the pool size plus the consumed count
equals the allowed-list size (1 + 1 = 2). -/
theorem c2_language_pool_invariant_witness :
    gW.available.length + (consumed gW).length = gW.langlist.length :=
  (c2_language_pool_invariant gW
    (by unfold Inv PoolInv ProperChildren consumed consumedLangs; decide)
    (by decide)).1

/-- C6.  The `value_language` setter of a value key inside a
translation group: with no requested language and no language tag on
the stored value, it draws the first language of the pool, or raises
`IntegrityBreach` when the pool is empty; it runs `language_in` on the
old language and then `language_out` on the new one, in that order, so
re-assigning the child's current language leaves the pool unchanged
instead of starving it. -/
theorem c6_value_language_setter (g : TransGroup)
    (pre post : List TChild) (c : TChild)
    (hch : g.children = pre ++ c :: post) :
    (c.literalLang = none → g.available = [] →
      setValueLanguage g pre.length none = .error .integrityBreach) ∧
    (∀ l rest, c.literalLang = none → g.available = l :: rest →
      ∃ g' ns, setValueLanguage g pre.length none = .ok (g', ns) ∧
        g'.children
          = pre ++ { c with valueLanguage := some l } :: post) ∧
    (∀ l, c.valueLanguage = some l → l ∈ g.langlist →
      l ∉ g.available →
      ∀ g' ns, setValueLanguage g pre.length (some l) = .ok (g', ns) →
        g'.available = g.available) := by
  have hge : g.children[pre.length]? = some c := by
    rw [hch]
    exact getElem?_append_cons pre post c
  refine ⟨fun hlit hav => ?_, fun l rest hlit hav => ?_,
    fun l hold hll hlav g' ns hok => ?_⟩
  · simp [setValueLanguage, hge, hlit, hav]
  · refine ⟨(applyLanguage g pre.length c l).1,
      (applyLanguage g pre.length c l).2, ?_, ?_⟩
    · simp [setValueLanguage, hge, hlit, hav]
    · show (applyLanguage g pre.length c l).1.children = _
      simp only [applyLanguage]
      rw [language_out_children, language_in_children, hch,
        set_append_length]
  · have hg' : g' = (applyLanguage g pre.length c l).1 := by
      simp only [setValueLanguage, hge, Except.ok.injEq] at hok
      rw [hok]
    have hguard : ¬(l ∉ g.langlist ∨ l ∈ g.available) := by
      push_neg
      exact ⟨hll, hlav⟩
    have hmem : l ∈ g.available ++ [l] := by simp
    rw [hg']
    simp [applyLanguage, hold, language_in, hguard, language_out, hmem,
      List.erase_append_right _ hlav]

/-- Example translation group with an exhausted pool. -/
def gEmpty : TransGroup :=
  ⟨["fr", "en"], [], [⟨false, false, some "fr", none⟩], true⟩

/-- Witness for C6: on `gEmpty`, whose pool is exhausted, assigning
`value_language` with no language raises `IntegrityBreach`. -/
theorem c6_value_language_setter_witness :
    setValueLanguage gEmpty 0 none = .error .integrityBreach :=
  (c6_value_language_setter gEmpty [] []
    ⟨false, false, some "fr", none⟩ rfl).1 rfl rfl

end Lang
